import Mathlib

/-!
Verification of the DotDotty dot-path accessor (src/index.mjs).

The source wraps a target container in a Proxy whose `get` trap resolves a
dot-delimited path by repeated property reads and whose `set` trap walks the
intermediate segments, auto-vivifying missing containers, and assigns the
terminal segment.  This file gives a shallow embedding of that code:

* `JVal` models the JavaScript values the accessor manipulates: `undefined`,
  `null`, booleans, numbers, strings, plain objects (association lists of own
  properties) and arrays (element list plus non-index own properties, since a
  JS array can also carry ordinary string-keyed properties).  Model scope:
  values form trees (no aliasing or cycles), property access is own-property
  access (the prototype chain, string character indexing, and the special
  array `length` property are outside the model), and numbers are integers.
* `getProp`/`setProp` model a single property read/write `obj[k]` / `obj[k] = v`.
  Reading from `null`/`undefined` and writing to a primitive (the module is
  strict-mode code) are TypeErrors, modelled as `none`.
* `jsStrToNum` models `Number(s)` on a path segment (`isNaN(s)` is
  `(jsStrToNum s).isNone`).  Segments never contain `.`, so only the integer
  forms of the string-to-number grammar are modelled: optional whitespace,
  optional sign, decimal digits; the empty or all-whitespace string is `0`.
* `getLoop`/`setLoop` are the two Proxy traps, translated line by line; the
  in-place mutation `obj[part] = ...` followed by descending `obj = obj[part]`
  is rendered by recursing on the child and reinstalling the updated child in
  the parent, which agrees with reference mutation on trees.
-/

namespace DotDotty

/-- JavaScript values as manipulated by the accessor (see module docstring
for the model scope). An array is its element list together with its
non-index own properties. -/
inductive JVal : Type where
  | undef : JVal
  | null : JVal
  | bool : Bool → JVal
  | num : Int → JVal
  | str : String → JVal
  | obj : List (String × JVal) → JVal
  | arr : List JVal → List (String × JVal) → JVal

/-- Configuration options of the accessor, with the source's defaults
`isImmutable=false`, `isExpandable=true`, `throwErrors=true`. -/
structure Config : Type where
  isImmutable : Bool
  isExpandable : Bool
  throwErrors : Bool
deriving DecidableEq

/-- The default options of the source. -/
def defaultCfg : Config := ⟨false, true, true⟩

/-- Errors the traps can raise: the descriptive `Error` thrown by the source
(`invalidPath` carries its message), or a TypeError raised by the JS runtime
itself when a property of `null`/`undefined` is read or a property of a
primitive is written (strict mode). -/
inductive JErr : Type where
  | invalidPath : String → JErr
  | typeError : JErr
deriving DecidableEq

/-- Result of the set trap: the value it returned, or the error it threw. -/
inductive Outcome : Type where
  | ret : JVal → Outcome
  | threw : JErr → Outcome

/-- Value of `v === undefined`. -/
def isUndef : JVal → Bool
  | .undef => true
  | _ => false

/-- Value of `typeof v === 'object'` in JS: true for `null`, objects and
arrays. -/
def isObjType : JVal → Bool
  | .null => true
  | .obj _ => true
  | .arr _ _ => true
  | _ => false

/-- An actual container (a valid Proxy target): an object or an array. -/
def JVal.isContainer : JVal → Bool
  | .obj _ => true
  | .arr _ _ => true
  | _ => false

/-- Whether a value is an array. -/
def JVal.isArr : JVal → Bool
  | .arr _ _ => true
  | _ => false

/-- Numeric value of a list of decimal digits. -/
def digitsToNat (cs : List Char) : Nat :=
  cs.foldl (fun a c => a * 10 + (c.toNat - 48)) 0

/-- A non-empty list of decimal digits. -/
def isDigits (cs : List Char) : Bool :=
  !cs.isEmpty && cs.all (fun c => c.isDigit)

/-- ASCII whitespace ignored by `Number(...)` (the full JS rule also strips
some rarer unicode spaces, outside the model). -/
def isSpaceChar (c : Char) : Bool :=
  c = ' ' || c = '\t' || c = '\n' || c = '\r'

/-- Strips leading and trailing whitespace. -/
def jsTrim (cs : List Char) : List Char :=
  ((cs.dropWhile isSpaceChar).reverse.dropWhile isSpaceChar).reverse

/-- Value of `Number(s)` for a path segment, `none` meaning NaN.  Segments
cannot contain `.`, so only the integer forms of the grammar are modelled:
optional surrounding whitespace, an optional sign, then decimal digits; the
empty or all-whitespace string converts to 0.  (Hexadecimal, exponent and
Infinity forms, and float rounding of huge literals, are outside the model.) -/
def jsStrToNum (s : String) : Option Int :=
  match jsTrim s.data with
  | [] => some 0
  | '-' :: ds => if isDigits ds then some (-(digitsToNat ds : Int)) else none
  | '+' :: ds => if isDigits ds then some ((digitsToNat ds : Int)) else none
  | t => if isDigits t then some ((digitsToNat t : Int)) else none

/-- Value of `!isNaN(s)`: whether the source treats segment `s` as numeric. -/
def jsIsNumeric (s : String) : Bool := (jsStrToNum s).isSome

/-- Value of `String(n)` for a number, used when a number is employed as a
property key. -/
def jsNumToStr (n : Int) : String := toString n

/-- Effective property key of a segment in the set trap: the trap runs
`if (!isNaN(part)) part = Number(part)`, so a numeric segment is replaced by
the canonical string of its numeric value before indexing. -/
def keyOf (s : String) : String :=
  match jsStrToNum s with
  | some n => jsNumToStr n
  | none => s

/-- Interprets a property key as an array index: JS array elements live at
the keys that are the canonical decimal strings of their indices. -/
def canonIndex (k : String) : Option Nat :=
  if isDigits k.data && toString (digitsToNat k.data) == k then
    some (digitsToNat k.data)
  else none

/-- First value bound to key `k` in an own-property list, `undefined` when
absent. -/
def lookupKey : List (String × JVal) → String → JVal
  | [], _ => .undef
  | (k', v) :: t, k => if k' = k then v else lookupKey t k

/-- Updates key `k` in an own-property list, appending it when absent (JS
assignment keeps the slot of an existing key and appends a new one). -/
def setInList : List (String × JVal) → String → JVal → List (String × JVal)
  | [], k, v => [(k, v)]
  | (k', v') :: t, k, v =>
    if k' = k then (k, v) :: t else (k', v') :: setInList t k v

/-- Writes index `i` of an element list, padding with holes (which read as
`undefined`) when `i` is beyond the current length, as JS array index
assignment does. -/
def padSet : List JVal → Nat → JVal → List JVal
  | [], 0, v => [v]
  | _ :: xs, 0, v => v :: xs
  | [], i + 1, v => .undef :: padSet [] i v
  | x :: xs, i + 1, v => x :: padSet xs i v

/-- Property read `base[k]`: `none` models the TypeError JS raises when the
base is `null` or `undefined`; primitives have no modelled properties and
yield `undefined`; objects and arrays use own-property lookup, arrays
routing canonical index keys to their element list. -/
def getProp : JVal → String → Option JVal
  | .undef, _ => none
  | .null, _ => none
  | .bool _, _ => some .undef
  | .num _, _ => some .undef
  | .str _, _ => some .undef
  | .obj fs, k => some (lookupKey fs k)
  | .arr es ps, k =>
    match canonIndex k with
    | some i => some (es.getD i .undef)
    | none => some (lookupKey ps k)

/-- Property write `base[k] = v`, returning the updated base: `none` models
the strict-mode TypeError JS raises when the base is not an object. -/
def setProp : JVal → String → JVal → Option JVal
  | .obj fs, k, v => some (.obj (setInList fs k v))
  | .arr es ps, k, v =>
    (match canonIndex k with
     | some i => some (.arr (padSet es i v) ps)
     | none => some (.arr es (setInList ps k v)))
  | _, _, _ => none

/-- Splits a character list at every `'.'`, as `prop.split('.')` does: the
result is never empty, and empty segments are kept. -/
def splitDotAux : List Char → List String
  | [] => [""]
  | c :: cs =>
    match splitDotAux cs with
    | [] => [String.mk [c]]
    | h :: t =>
      if c = '.' then "" :: h :: t
      else String.mk (c :: h.data) :: t

/-- Value of `prop.split('.')`. -/
def jsSplit (s : String) : List String := splitDotAux s.data

/-- A run of `n` spaces, as `" ".repeat(n)`. -/
def spaces (n : Nat) : String := String.mk (List.replicate n ' ')

/-- Value of `l.join('.')`. -/
def joinDot : List String → String
  | [] => ""
  | [s] => s
  | s :: t => s ++ "." ++ joinDot t

/-- Message of the `Error` both traps throw when segment `seg` (at position
`i` of the split path `parts`) resolves to `undefined`; `p` is the original
path string. -/
def errMsg (seg : String) (p : String) (parts : List String) (i : Nat) : String :=
  if i = 0 then
    "invalid target \"" ++ seg ++ "\"\n" ++ p ++ "\n^"
  else
    "invalid target \"" ++ seg ++ "\" in \"" ++ joinDot (parts.take i) ++ "\"\n"
      ++ p ++ "\n" ++ spaces (joinDot (parts.take i)).length ++ "^"

/-- The get trap's loop over the remaining segments (`i` is the absolute
index of the first of them within `allParts`): each step reads the segment
as a property of the current value and fails when the result is
`undefined`, throwing when `throwErrors` is set. -/
def getLoop (cfg : Config) (p : String) (allParts : List String) :
    List String → Nat → JVal → Except JErr JVal
  | [], _, obj => .ok obj
  | seg :: rest, i, obj =>
    match getProp obj seg with
    | none => .error .typeError
    | some w =>
      if isUndef w then
        if cfg.throwErrors then .error (.invalidPath (errMsg seg p allParts i))
        else .ok .undef
      else getLoop cfg p allParts rest (i + 1) w

/-- The get trap: split the path and resolve it from the target. -/
def dotGet (cfg : Config) (target : JVal) (p : String) : Except JErr JVal :=
  getLoop cfg p (jsSplit p) (jsSplit p) 0 target

/-- Auto-vivification step of the set trap at one intermediate segment with
effective key `key` and following segment `next` (the source guards on
`nextPart !== undefined && isExpandable`, and inside the loop `nextPart` is
always defined): when the current value at `key` is `undefined` or not of
object type it is replaced by a fresh empty array if `next` is numeric and
a fresh empty object otherwise.  `none` models the TypeError of reading a
property of `null`/`undefined` in the guard. -/
def vivPhase (cfg : Config) (key next : String) (obj : JVal) : Option JVal :=
  if cfg.isExpandable then
    match getProp obj key with
    | none => none
    | some w =>
      if isUndef w || !isObjType w then
        some ((setProp obj key
          (if jsIsNumeric next then .arr [] [] else .obj [])).getD obj)
      else some obj
  else some obj

/-- The set trap's walk over the remaining segments, returning the updated
current container together with the trap's outcome.  An intermediate step
coerces a numeric segment to its canonical key, auto-vivifies, fails if the
value at the key is still `undefined`, and otherwise descends — rendered
here by recursing on the child and reinstalling the updated child.  The
terminal step refuses (only) a still-`undefined` slot when `isExpandable`
is false, and otherwise assigns the value and returns it. -/
def setLoop (cfg : Config) (p : String) (allParts : List String) (v : JVal) :
    List String → Nat → JVal → JVal × Outcome
  | [], _, obj => (obj, .ret .undef)
  | [last], i, obj =>
    (match getProp obj last with
     | none => (obj, .threw .typeError)
     | some w =>
       if isUndef w && !cfg.isExpandable then
         if cfg.throwErrors then (obj, .threw (.invalidPath (errMsg last p allParts i)))
         else (obj, .ret .undef)
       else
         match setProp obj last v with
         | none => (obj, .threw .typeError)
         | some obj' => (obj', .ret v))
  | seg :: next :: rest, i, obj =>
    (match vivPhase cfg (keyOf seg) next obj with
     | none => (obj, .threw .typeError)
     | some obj1 =>
       match getProp obj1 (keyOf seg) with
       | none => (obj1, .threw .typeError)
       | some w =>
         if isUndef w then
           if cfg.throwErrors then
             (obj1, .threw (.invalidPath (errMsg (keyOf seg) p allParts i)))
           else (obj1, .ret .undef)
         else
           ((setProp obj1 (keyOf seg)
               (setLoop cfg p allParts v (next :: rest) (i + 1) w).1).getD obj1,
            (setLoop cfg p allParts v (next :: rest) (i + 1) w).2))

/-- The set trap: an immutable accessor returns `undefined` without touching
the target; otherwise the path is split and walked from the target.  The
first component is the target after the call, the second the outcome. -/
def dotSet (cfg : Config) (target : JVal) (p : String) (v : JVal) :
    JVal × Outcome :=
  if cfg.isImmutable then (target, .ret .undef)
  else setLoop cfg p (jsSplit p) v (jsSplit p) 0 target

/-- Fresh containers created by auto-vivification. -/
def EmptyCont (f : JVal) : Prop := f = .obj [] ∨ f = .arr [] []

/-- Whether every segment of a path (addressed with the set trap's coerced
keys for intermediate segments and the raw final segment, as the trap does)
already resolves to a defined value in `c`.  The empty segment list, which
`split` never produces, counts as unresolved. -/
def resolvesB : JVal → List String → Bool
  | _, [] => false
  | c, [last] =>
    match getProp c last with
    | some w => !isUndef w
    | none => false
  | c, seg :: rest =>
    match getProp c (keyOf seg) with
    | some w => if isUndef w then false else resolvesB w rest
    | none => false

/-- Whether the set trap's walk, addressing intermediate segments through
their coerced keys, meets a strictly `undefined` value at some intermediate
segment (the terminal segment is not considered, and a `null` met on the
way — a TypeError, not a missing entry — does not count). -/
def missingIntermediate : JVal → List String → Bool
  | _, [] => false
  | _, [_] => false
  | c, seg :: rest =>
    match getProp c (keyOf seg) with
    | some w => if isUndef w then true else missingIntermediate w rest
    | none => false

/-- Reads a path the way the set trap addresses it: intermediate segments
through their coerced keys, the final segment raw; `none` when a read
hits `null`/`undefined`. -/
def readPath : JVal → List String → Option JVal
  | c, [] => some c
  | c, [last] => getProp c last
  | c, seg :: rest =>
    match getProp c (keyOf seg) with
    | some w => readPath w rest
    | none => none

/-! Basic lemmas about the property-access primitives. -/

theorem isUndef_iff {w : JVal} : isUndef w = true ↔ w = .undef := by
  cases w <;> simp [isUndef]

theorem isUndef_eq_false {w : JVal} : isUndef w = false ↔ w ≠ .undef := by
  cases w <;> simp [isUndef]

theorem lookupKey_setInList_self (l : List (String × JVal)) (k : String) (v : JVal) :
    lookupKey (setInList l k v) k = v := by
  induction l with
  | nil => simp [setInList, lookupKey]
  | cons h t ih =>
    obtain ⟨k', v'⟩ := h
    by_cases hk : k' = k <;> simp [setInList, hk, lookupKey, ih]

theorem lookupKey_setInList_other (l : List (String × JVal)) (k k' : String) (v : JVal)
    (hk : k' ≠ k) : lookupKey (setInList l k v) k' = lookupKey l k' := by
  induction l with
  | nil => simp [setInList, lookupKey, Ne.symm hk]
  | cons h t ih =>
    obtain ⟨k'', v''⟩ := h
    by_cases hk2 : k'' = k
    · subst hk2
      simp [setInList, lookupKey, Ne.symm hk]
    · simp [setInList, hk2, lookupKey, ih]

theorem setInList_lookup_id (l : List (String × JVal)) (k : String)
    (h : lookupKey l k ≠ .undef) : setInList l k (lookupKey l k) = l := by
  induction l with
  | nil => exact absurd rfl h
  | cons hd t ih =>
    obtain ⟨k', v'⟩ := hd
    by_cases hk : k' = k
    · subst hk; simp [setInList, lookupKey]
    · simp only [lookupKey, if_neg hk] at h
      simp [setInList, hk, lookupKey, ih h]

theorem padSet_getD_self : ∀ (i : Nat) (es : List JVal) (v : JVal),
    (padSet es i v)[i]?.getD .undef = v
  | 0, [], _ => by simp [padSet]
  | 0, _ :: _, _ => by simp [padSet]
  | i + 1, [], v => by
    simpa [padSet] using padSet_getD_self i [] v
  | i + 1, x :: xs, v => by
    simpa [padSet] using padSet_getD_self i xs v

theorem padSet_getD_other : ∀ (i j : Nat) (es : List JVal) (v : JVal), j ≠ i →
    (padSet es i v)[j]?.getD .undef = es[j]?.getD .undef
  | 0, 0, _, _, h => absurd rfl h
  | 0, j + 1, [], _, _ => by simp [padSet]
  | 0, j + 1, _ :: _, _, _ => by simp [padSet]
  | i + 1, 0, [], _, _ => by simp [padSet]
  | i + 1, 0, _ :: _, _, _ => by simp [padSet]
  | i + 1, j + 1, [], v, h => by
    simpa [padSet] using padSet_getD_other i j [] v (fun hc => h (by omega))
  | i + 1, j + 1, x :: xs, v, h => by
    simpa [padSet] using padSet_getD_other i j xs v (fun hc => h (by omega))

theorem padSet_lt_id : ∀ (i : Nat) (es : List JVal), i < es.length →
    padSet es i (es[i]?.getD .undef) = es
  | 0, [], h => by simp at h
  | 0, x :: xs, _ => by simp [padSet]
  | i + 1, [], h => by simp at h
  | i + 1, x :: xs, h => by
    have ih := padSet_lt_id i xs (by simpa using h)
    simpa [padSet] using ih

theorem canonIndex_eq {k : String} {i : Nat} (h : canonIndex k = some i) :
    k = toString i := by
  unfold canonIndex at h
  split at h
  · rename_i hcond
    obtain ⟨h1, h2⟩ := (Bool.and_eq_true _ _).mp hcond
    cases h
    exact (eq_of_beq h2).symm
  · exact absurd h (by simp)

theorem canonIndex_inj {k k' : String} {i : Nat}
    (h : canonIndex k = some i) (h' : canonIndex k' = some i) : k = k' := by
  rw [canonIndex_eq h, canonIndex_eq h']

theorem getProp_setProp_self {c c' : JVal} {k : String} {v : JVal}
    (h : setProp c k v = some c') : getProp c' k = some v := by
  cases c with
  | obj fs =>
    simp only [setProp, Option.some.injEq] at h
    subst h
    simp [getProp, lookupKey_setInList_self]
  | arr es ps =>
    simp only [setProp] at h
    cases hci : canonIndex k with
    | some i =>
      rw [hci] at h
      cases h
      simp [getProp, hci, padSet_getD_self]
    | none =>
      rw [hci] at h
      cases h
      simp [getProp, hci, lookupKey_setInList_self]
  | undef => simp [setProp] at h
  | null => simp [setProp] at h
  | bool b => simp [setProp] at h
  | num n => simp [setProp] at h
  | str s => simp [setProp] at h

theorem getProp_setProp_other {c c' : JVal} {k k' : String} {v : JVal}
    (h : setProp c k v = some c') (hk : k' ≠ k) : getProp c' k' = getProp c k' := by
  cases c with
  | obj fs =>
    simp only [setProp, Option.some.injEq] at h
    subst h
    simp [getProp, lookupKey_setInList_other _ _ _ _ hk]
  | arr es ps =>
    simp only [setProp] at h
    cases hci : canonIndex k with
    | some i =>
      rw [hci] at h
      cases h
      cases hci' : canonIndex k' with
      | some i' =>
        have hii : i' ≠ i := fun he => hk (canonIndex_inj hci' (he ▸ hci))
        simp [getProp, hci', padSet_getD_other _ _ _ _ hii]
      | none => simp [getProp, hci']
    | none =>
      rw [hci] at h
      cases h
      cases hci' : canonIndex k' with
      | some i' => simp [getProp, hci']
      | none => simp [getProp, hci', lookupKey_setInList_other _ _ _ _ hk]
  | undef => simp [setProp] at h
  | null => simp [setProp] at h
  | bool b => simp [setProp] at h
  | num n => simp [setProp] at h
  | str s => simp [setProp] at h

theorem setProp_self_id {c : JVal} {k : String} {w : JVal}
    (h : getProp c k = some w) (hw : w ≠ .undef) : setProp c k w = some c := by
  cases c with
  | obj fs =>
    simp only [getProp, Option.some.injEq] at h
    subst h
    simp [setProp, setInList_lookup_id _ _ hw]
  | arr es ps =>
    simp only [getProp] at h
    cases hci : canonIndex k with
    | some i =>
      rw [hci] at h
      cases h
      have hlt : i < es.length := by
        by_contra hge
        exact hw (List.getD_eq_default _ _ (by omega))
      simp [setProp, hci, padSet_lt_id _ _ hlt]
    | none =>
      rw [hci] at h
      cases h
      simp [setProp, hci, setInList_lookup_id _ _ hw]
  | undef => simp [getProp] at h
  | null => simp [getProp] at h
  | bool b => cases h; exact absurd rfl hw
  | num n => cases h; exact absurd rfl hw
  | str s => cases h; exact absurd rfl hw

theorem getProp_some_of_container {c : JVal} (hc : c.isContainer = true) (k : String) :
    ∃ w, getProp c k = some w := by
  cases c with
  | obj fs => exact ⟨_, rfl⟩
  | arr es ps =>
    cases hci : canonIndex k with
    | some i => exact ⟨es[i]?.getD .undef, by simp [getProp, hci]⟩
    | none => exact ⟨lookupKey ps k, by simp [getProp, hci]⟩
  | undef => simp [JVal.isContainer] at hc
  | null => simp [JVal.isContainer] at hc
  | bool b => simp [JVal.isContainer] at hc
  | num n => simp [JVal.isContainer] at hc
  | str s => simp [JVal.isContainer] at hc

theorem container_of_getProp {c w : JVal} {k : String}
    (h : getProp c k = some w) (hw : w ≠ .undef) : c.isContainer = true := by
  cases c <;> simp_all [getProp, JVal.isContainer]

theorem setProp_of_container {c : JVal} (hc : c.isContainer = true) (k : String) (v : JVal) :
    ∃ c', setProp c k v = some c' ∧ c'.isContainer = true ∧ c'.isArr = c.isArr := by
  cases c with
  | obj fs => exact ⟨_, rfl, rfl, rfl⟩
  | arr es ps =>
    cases hci : canonIndex k with
    | some i => exact ⟨.arr (padSet es i v) ps, by simp [setProp, hci], rfl, rfl⟩
    | none => exact ⟨.arr es (setInList ps k v), by simp [setProp, hci], rfl, rfl⟩
  | undef => simp [JVal.isContainer] at hc
  | null => simp [JVal.isContainer] at hc
  | bool b => simp [JVal.isContainer] at hc
  | num n => simp [JVal.isContainer] at hc
  | str s => simp [JVal.isContainer] at hc

theorem setProp_some_container {c c' : JVal} {k : String} {v : JVal}
    (h : setProp c k v = some c') : c.isContainer = true ∧
      c'.isContainer = true ∧ c'.isArr = c.isArr := by
  cases c with
  | obj fs => cases h; exact ⟨rfl, rfl, rfl⟩
  | arr es ps =>
    refine ⟨rfl, ?_⟩
    simp only [setProp] at h
    cases hci : canonIndex k with
    | some i => rw [hci] at h; cases h; exact ⟨rfl, rfl⟩
    | none => rw [hci] at h; cases h; exact ⟨rfl, rfl⟩
  | undef => simp [setProp] at h
  | null => simp [setProp] at h
  | bool b => simp [setProp] at h
  | num n => simp [setProp] at h
  | str s => simp [setProp] at h

theorem getProp_empty {f : JVal} (h : EmptyCont f) (k : String) :
    getProp f k = some .undef := by
  rcases h with h | h <;> subst h
  · simp [getProp, lookupKey]
  · cases hci : canonIndex k with
    | some i => simp [getProp, hci, List.getD]
    | none => simp [getProp, hci, lookupKey]

theorem emptyCont_container {f : JVal} (h : EmptyCont f) : f.isContainer = true := by
  rcases h with h | h <;> subst h <;> rfl

theorem emptyCont_freshFor (next : String) :
    EmptyCont (if jsIsNumeric next then JVal.arr [] [] else JVal.obj []) := by
  by_cases h : jsIsNumeric next <;> simp [h, EmptyCont]

theorem splitDotAux_ne_nil (cs : List Char) : splitDotAux cs ≠ [] := by
  induction cs with
  | nil => simp [splitDotAux]
  | cons c cs ih =>
    simp only [splitDotAux]
    cases h : splitDotAux cs with
    | nil => exact absurd h ih
    | cons a t =>
      by_cases hc : c = '.' <;> simp [hc]

theorem jsSplit_ne_nil (s : String) : jsSplit s ≠ [] := splitDotAux_ne_nil s.data

/-! Step equations of the two trap loops, phrased on a known property read. -/

theorem getLoop_cons_typeError {cfg : Config} {p : String} {allP : List String}
    {seg : String} {rest : List String} {i : Nat} {obj : JVal}
    (hg : getProp obj seg = none) :
    getLoop cfg p allP (seg :: rest) i obj = .error .typeError := by
  simp only [getLoop, hg]

theorem getLoop_cons {cfg : Config} {p : String} {allP : List String}
    {seg : String} {rest : List String} {i : Nat} {obj w : JVal}
    (hg : getProp obj seg = some w) :
    getLoop cfg p allP (seg :: rest) i obj =
      if isUndef w then
        if cfg.throwErrors then .error (.invalidPath (errMsg seg p allP i))
        else .ok .undef
      else getLoop cfg p allP rest (i + 1) w := by
  simp only [getLoop, hg]

theorem vivPhase_not_expandable {cfg : Config} {key next : String} {obj : JVal}
    (h : cfg.isExpandable = false) : vivPhase cfg key next obj = some obj := by
  unfold vivPhase
  rw [if_neg (by simp [h])]

theorem setLoop_last_typeError {cfg : Config} {p : String} {allP : List String}
    {v : JVal} {last : String} {i : Nat} {obj : JVal}
    (hg : getProp obj last = none) :
    setLoop cfg p allP v [last] i obj = (obj, .threw .typeError) := by
  simp only [setLoop, hg]

theorem setLoop_last {cfg : Config} {p : String} {allP : List String}
    {v : JVal} {last : String} {i : Nat} {obj w : JVal}
    (hg : getProp obj last = some w) :
    setLoop cfg p allP v [last] i obj =
      if isUndef w && !cfg.isExpandable then
        if cfg.throwErrors then (obj, .threw (.invalidPath (errMsg last p allP i)))
        else (obj, .ret .undef)
      else
        match setProp obj last v with
        | none => (obj, .threw .typeError)
        | some obj' => (obj', .ret v) := by
  simp only [setLoop, hg]

theorem setLoop_cons_typeError {cfg : Config} {p : String} {allP : List String}
    {v : JVal} {seg next : String} {rest : List String} {i : Nat} {obj : JVal}
    (hv : vivPhase cfg (keyOf seg) next obj = none) :
    setLoop cfg p allP v (seg :: next :: rest) i obj = (obj, .threw .typeError) := by
  simp only [setLoop, hv]

theorem setLoop_cons_typeError2 {cfg : Config} {p : String} {allP : List String}
    {v : JVal} {seg next : String} {rest : List String} {i : Nat} {obj obj1 : JVal}
    (hv : vivPhase cfg (keyOf seg) next obj = some obj1)
    (hg : getProp obj1 (keyOf seg) = none) :
    setLoop cfg p allP v (seg :: next :: rest) i obj = (obj1, .threw .typeError) := by
  simp only [setLoop, hv, hg]

theorem setLoop_cons {cfg : Config} {p : String} {allP : List String}
    {v : JVal} {seg next : String} {rest : List String} {i : Nat} {obj obj1 w : JVal}
    (hv : vivPhase cfg (keyOf seg) next obj = some obj1)
    (hg : getProp obj1 (keyOf seg) = some w) :
    setLoop cfg p allP v (seg :: next :: rest) i obj =
      if isUndef w then
        if cfg.throwErrors then
          (obj1, .threw (.invalidPath (errMsg (keyOf seg) p allP i)))
        else (obj1, .ret .undef)
      else
        ((setProp obj1 (keyOf seg)
            (setLoop cfg p allP v (next :: rest) (i + 1) w).1).getD obj1,
         (setLoop cfg p allP v (next :: rest) (i + 1) w).2) := by
  simp only [setLoop, hv, hg]

/-- C1: on the empty object with default options, setting path `d.0.a` to
`"test"` makes `d` an array whose element 0 is the object mapping `a` to
`"test"`, returns `"test"`, and a subsequent get of `d.0.a` on the updated
target returns `"test"`. -/
theorem numericSequencing :
    dotSet defaultCfg (.obj []) "d.0.a" (.str "test") =
      (.obj [("d", .arr [.obj [("a", .str "test")]] [])], .ret (.str "test")) ∧
    dotGet defaultCfg (.obj [("d", .arr [.obj [("a", .str "test")]] [])]) "d.0.a" =
      .ok (.str "test") := by
  constructor <;> rfl

/-- C5: with `isImmutable` true, a set performs no mutation of the target and
returns `undefined`. -/
theorem immutableNoOp (cfg : Config) (T : JVal) (p : String) (v : JVal)
    (h : cfg.isImmutable = true) : dotSet cfg T p v = (T, .ret .undef) := by
  simp [dotSet, h]

/-- Witness for `immutableNoOp`: the spec's own example `set("c.cA", true)`. -/
theorem immutableNoOpWitness :
    dotSet ⟨true, true, true⟩ (.obj [("a", .num 1), ("b", .num 2)]) "c.cA" (.bool true) =
      (.obj [("a", .num 1), ("b", .num 2)], .ret .undef) :=
  immutableNoOp ⟨true, true, true⟩ (.obj [("a", .num 1), ("b", .num 2)]) "c.cA"
    (.bool true) rfl

/-- With `isExpandable` and `throwErrors` both false, a set walk that meets
an `undefined` value at an intermediate segment returns `undefined` and
leaves the current container unchanged. -/
theorem setLoop_missing {cfg : Config} {p : String} {allP : List String} {v : JVal}
    (hexp : cfg.isExpandable = false) (hthr : cfg.throwErrors = false) :
    ∀ (parts : List String) (i : Nat) (c : JVal),
      missingIntermediate c parts = true →
      setLoop cfg p allP v parts i c = (c, .ret .undef) := by
  intro parts
  induction parts with
  | nil => intro i c hmiss; cases hmiss
  | cons seg rest ih =>
    intro i c hmiss
    cases rest with
    | nil => simp [missingIntermediate] at hmiss
    | cons next rest' =>
      have hvp := @vivPhase_not_expandable cfg (keyOf seg) next c hexp
      cases hg : getProp c (keyOf seg) with
      | none => simp only [missingIntermediate, hg] at hmiss; cases hmiss
      | some w =>
        simp only [missingIntermediate, hg] at hmiss
        by_cases hu : isUndef w = true
        · rw [setLoop_cons hvp hg, if_pos hu, if_neg (by simp [hthr])]
        · rw [if_neg hu] at hmiss
          have hw : w ≠ .undef := isUndef_eq_false.mp (by simpa using hu)
          rw [setLoop_cons hvp hg, if_neg hu, ih (i + 1) w hmiss]
          simp [setProp_self_id hg hw]

/-- C6: with `isExpandable` false, `throwErrors` false and `isImmutable`
false, a set on a path one of whose intermediate segments is missing from
the target (in particular `set("x.y", 1)` on a target lacking `x`) returns
`undefined` and leaves the target entirely unchanged. -/
theorem nonExpandableGuard (cfg : Config) (T v : JVal) (p : String)
    (himm : cfg.isImmutable = false) (hexp : cfg.isExpandable = false)
    (hthr : cfg.throwErrors = false)
    (hmiss : missingIntermediate T (jsSplit p) = true) :
    dotSet cfg T p v = (T, .ret .undef) := by
  unfold dotSet
  rw [if_neg (by simp [himm])]
  exact setLoop_missing hexp hthr (jsSplit p) 0 T hmiss

/-- Witness for `nonExpandableGuard`: the spec's own example `set("x.y", 1)`
on the empty object. -/
theorem nonExpandableGuardWitness :
    dotSet ⟨false, false, false⟩ (.obj []) "x.y" (.num 1) = (.obj [], .ret .undef) :=
  nonExpandableGuard ⟨false, false, false⟩ (.obj []) (.num 1) "x.y" rfl rfl rfl rfl

/-- C10: a defined falsy value (`null`, `0`, `false`, `""`) at the terminal
position is returned by get rather than treated as missing, and in general a
resolution step continues (neither throws nor returns `undefined`) whenever
the value read is anything other than strictly `undefined`. -/
theorem undefOnlyFailure :
    (dotGet defaultCfg (.obj [("a", .null)]) "a" = .ok .null) ∧
    (dotGet defaultCfg (.obj [("a", .num 0)]) "a" = .ok (.num 0)) ∧
    (dotGet defaultCfg (.obj [("a", .bool false)]) "a" = .ok (.bool false)) ∧
    (dotGet defaultCfg (.obj [("a", .str "")]) "a" = .ok (.str "")) ∧
    ∀ (cfg : Config) (p : String) (allP : List String) (seg : String)
      (rest : List String) (i : Nat) (obj w : JVal),
      getProp obj seg = some w → w ≠ .undef →
      getLoop cfg p allP (seg :: rest) i obj = getLoop cfg p allP rest (i + 1) w := by
  refine ⟨rfl, rfl, rfl, rfl, ?_⟩
  intro cfg p allP seg rest i obj w hg hw
  simp [getLoop, hg, isUndef_eq_false.mpr hw]

/-- Witness for `undefOnlyFailure`: one resolution step over a defined value. -/
theorem undefOnlyFailureWitness :
    getLoop defaultCfg "a" ["a"] ["a"] 0 (.obj [("a", .bool true)]) =
      getLoop defaultCfg "a" ["a"] [] 1 (.bool true) :=
  undefOnlyFailure.2.2.2.2 defaultCfg "a" ["a"] "a" [] 0
    (.obj [("a", .bool true)]) (.bool true) rfl (by intro h; cases h)

/-- A get with `throwErrors` false never produces an InvalidPath error. -/
theorem getLoop_no_invalid (cfg : Config) (p : String) (allP : List String)
    (hthr : cfg.throwErrors = false) :
    ∀ (parts : List String) (i : Nat) (obj : JVal) (m : String),
      getLoop cfg p allP parts i obj ≠ .error (.invalidPath m) := by
  intro parts
  induction parts with
  | nil => intro i obj m h; simp [getLoop] at h
  | cons seg rest ih =>
    intro i obj m h
    cases hg : getProp obj seg with
    | none => rw [getLoop_cons_typeError hg] at h; simp at h
    | some w =>
      rw [getLoop_cons hg] at h
      by_cases hu : isUndef w = true
      · rw [if_pos hu, hthr] at h; simp at h
      · rw [if_neg hu] at h
        exact ih (i + 1) w m h

/-- A set with `throwErrors` false never throws an InvalidPath error. -/
theorem setLoop_no_invalid (cfg : Config) (p : String) (allP : List String) (v : JVal)
    (hthr : cfg.throwErrors = false) :
    ∀ (parts : List String) (i : Nat) (obj : JVal) (m : String),
      (setLoop cfg p allP v parts i obj).2 ≠ .threw (.invalidPath m) := by
  intro parts
  induction parts with
  | nil => intro i obj m h; simp [setLoop] at h
  | cons seg rest ih =>
    cases rest with
    | nil =>
      intro i obj m h
      cases hg : getProp obj seg with
      | none => rw [setLoop_last_typeError hg] at h; simp at h
      | some w =>
        rw [setLoop_last hg] at h
        by_cases hu : (isUndef w && !cfg.isExpandable) = true
        · rw [if_pos hu, hthr] at h; simp at h
        · rw [if_neg hu] at h
          cases hs : setProp obj seg v with
          | none => rw [hs] at h; simp at h
          | some obj' => rw [hs] at h; simp at h
    | cons next rest' =>
      intro i obj m h
      cases hv : vivPhase cfg (keyOf seg) next obj with
      | none => rw [setLoop_cons_typeError hv] at h; simp at h
      | some obj1 =>
        cases hg : getProp obj1 (keyOf seg) with
        | none => rw [setLoop_cons_typeError2 hv hg] at h; simp at h
        | some w =>
          rw [setLoop_cons hv hg] at h
          by_cases hu : isUndef w = true
          · rw [if_pos hu, hthr] at h; simp at h
          · rw [if_neg hu] at h
            exact ih (i + 1) w m h

/-- C4 (amended): with `throwErrors` false neither trap ever raises the
source's InvalidPath error — a failed read short-circuits to `undefined` and
a failed write returns `undefined` — but reading a property of a `null`
value raises a TypeError regardless of the option. -/
theorem noInvalidPathWhenSilent (cfg : Config) (T : JVal) (p : String) (v : JVal)
    (hthr : cfg.throwErrors = false) :
    (∀ m, dotGet cfg T p ≠ .error (.invalidPath m)) ∧
    (∀ m, (dotSet cfg T p v).2 ≠ .threw (.invalidPath m)) := by
  constructor
  · intro m
    exact getLoop_no_invalid cfg p (jsSplit p) hthr (jsSplit p) 0 T m
  · intro m
    by_cases him : cfg.isImmutable = true
    · simp [dotSet, him]
    · simp only [dotSet, if_neg him]
      exact setLoop_no_invalid cfg p (jsSplit p) v hthr (jsSplit p) 0 T m

/-- Witness for `noInvalidPathWhenSilent` at a concrete failing read and
write. -/
theorem noInvalidPathWhenSilentWitness :
    (∀ m, dotGet ⟨false, true, false⟩ (.obj []) "x.y" ≠ .error (.invalidPath m)) ∧
    (∀ m, (dotSet ⟨false, true, false⟩ (.obj []) "x.y" (.num 1)).2 ≠
      .threw (.invalidPath m)) :=
  noInvalidPathWhenSilent ⟨false, true, false⟩ (.obj []) "x.y" (.num 1) rfl

/-- Counterexample to C4 as stated: with `throwErrors` false, reading path
`a.b` when `a` holds `null` still raises an error (the TypeError of
accessing a property of `null`), so an invalid read can raise even with
errors disabled. -/
theorem silentReadTypeError :
    dotGet ⟨false, true, false⟩ (.obj [("a", .null)]) "a.b" = .error .typeError := rfl

theorem container_isUndef_false {c : JVal} (hc : c.isContainer = true) :
    isUndef c = false := by
  cases c <;> simp_all [JVal.isContainer, isUndef]

/-- A successful vivification step either leaves the current container
unchanged or replaces the slot at `key` with a fresh empty container whose
kind is decided by whether `next` is numeric. -/
theorem vivPhase_eq_or {cfg : Config} {key next : String} {obj obj1 : JVal}
    (hv : vivPhase cfg key next obj = some obj1) :
    obj1 = obj ∨
    (cfg.isExpandable = true ∧
      setProp obj key (if jsIsNumeric next then JVal.arr [] [] else JVal.obj []) =
        some obj1) := by
  unfold vivPhase at hv
  by_cases hexp : cfg.isExpandable = true
  · rw [if_pos hexp] at hv
    cases hg : getProp obj key with
    | none => simp only [hg] at hv; cases hv
    | some w =>
      simp only [hg] at hv
      by_cases hcond : (isUndef w || !isObjType w) = true
      · rw [if_pos hcond] at hv
        cases hs : setProp obj key
            (if jsIsNumeric next then JVal.arr [] [] else JVal.obj []) with
        | none => rw [hs] at hv; simp at hv; exact Or.inl hv.symm
        | some c1 => rw [hs] at hv; simp at hv; exact Or.inr ⟨hexp, by rw [hv]⟩
      · rw [if_neg hcond] at hv
        simp only [Option.some.injEq] at hv
        exact Or.inl hv.symm
  · rw [if_neg hexp] at hv
    simp only [Option.some.injEq] at hv
    exact Or.inl hv.symm

theorem vivPhase_preserves {cfg : Config} {key next : String} {obj obj1 : JVal}
    (hv : vivPhase cfg key next obj = some obj1) (hc : obj.isContainer = true) :
    obj1.isContainer = true ∧ obj1.isArr = obj.isArr := by
  rcases vivPhase_eq_or hv with h | ⟨_, hs⟩
  · subst h; exact ⟨hc, rfl⟩
  · have h2 := setProp_some_container hs
    exact ⟨h2.2.1, h2.2.2⟩

/-- A set walk keeps the current value a container of the same kind. -/
theorem setLoop_preserves {cfg : Config} {p : String} {allP : List String} {v : JVal} :
    ∀ (parts : List String) (i : Nat) (obj : JVal), obj.isContainer = true →
      (setLoop cfg p allP v parts i obj).1.isContainer = true ∧
      (setLoop cfg p allP v parts i obj).1.isArr = obj.isArr := by
  intro parts i obj hc
  cases parts with
  | nil => exact ⟨hc, rfl⟩
  | cons seg rest =>
    cases rest with
    | nil =>
      cases hg : getProp obj seg with
      | none => rw [setLoop_last_typeError hg]; exact ⟨hc, rfl⟩
      | some w =>
        by_cases hu : (isUndef w && !cfg.isExpandable) = true
        · by_cases ht : cfg.throwErrors = true
          · rw [setLoop_last hg, if_pos hu, if_pos ht]; exact ⟨hc, rfl⟩
          · rw [setLoop_last hg, if_pos hu, if_neg ht]; exact ⟨hc, rfl⟩
        · cases hs : setProp obj seg v with
          | none => rw [setLoop_last hg, if_neg hu, hs]; exact ⟨hc, rfl⟩
          | some obj' =>
            rw [setLoop_last hg, if_neg hu, hs]
            have h2 := setProp_some_container hs
            exact ⟨h2.2.1, h2.2.2⟩
    | cons next rest' =>
      cases hv : vivPhase cfg (keyOf seg) next obj with
      | none => rw [setLoop_cons_typeError hv]; exact ⟨hc, rfl⟩
      | some obj1 =>
        have hp := vivPhase_preserves hv hc
        cases hg : getProp obj1 (keyOf seg) with
        | none => rw [setLoop_cons_typeError2 hv hg]; exact ⟨hp.1, hp.2⟩
        | some w =>
          by_cases hu : isUndef w = true
          · by_cases ht : cfg.throwErrors = true
            · rw [setLoop_cons hv hg, if_pos hu, if_pos ht]; exact ⟨hp.1, hp.2⟩
            · rw [setLoop_cons hv hg, if_pos hu, if_neg ht]; exact ⟨hp.1, hp.2⟩
          · rw [setLoop_cons hv hg, if_neg hu]
            cases hs : setProp obj1 (keyOf seg)
                (setLoop cfg p allP v (next :: rest') (i + 1) w).1 with
            | none => exact ⟨hp.1, hp.2⟩
            | some c2 =>
              have h2 := setProp_some_container hs
              exact ⟨h2.2.1, h2.2.2.trans hp.2⟩

/-- With `isExpandable` true, a set walk started on a fresh empty container
always succeeds and returns the assigned value: every intermediate slot of
the fresh container is vivified and the terminal assignment goes through. -/
theorem setLoop_fresh {cfg : Config} {p : String} {allP : List String} {v : JVal}
    (hexp : cfg.isExpandable = true) :
    ∀ (parts : List String) (i : Nat) (f : JVal), EmptyCont f → parts ≠ [] →
      (setLoop cfg p allP v parts i f).2 = .ret v := by
  intro parts
  induction parts with
  | nil => intro i f _ hne; exact absurd rfl hne
  | cons seg rest ih =>
    intro i f hf _
    cases rest with
    | nil =>
      rw [setLoop_last (getProp_empty hf seg), if_neg (by simp [hexp, isUndef])]
      obtain ⟨c', hc', _, _⟩ := setProp_of_container (emptyCont_container hf) seg v
      rw [hc']
    | cons next rest' =>
      obtain ⟨c1, hc1, hcc1, _⟩ := setProp_of_container (emptyCont_container hf)
        (keyOf seg) (if jsIsNumeric next then JVal.arr [] [] else JVal.obj [])
      have hv : vivPhase cfg (keyOf seg) next f = some c1 := by
        unfold vivPhase
        rw [if_pos hexp, getProp_empty hf (keyOf seg)]
        simp [isUndef, hc1]
      have hg1 := getProp_setProp_self hc1
      have hu : isUndef (if jsIsNumeric next then JVal.arr [] [] else JVal.obj []) =
          false := container_isUndef_false (emptyCont_container (emptyCont_freshFor next))
      rw [setLoop_cons hv hg1, if_neg (by simp [hu])]
      exact ih (i + 1) _ (emptyCont_freshFor next) (by simp)

/-- A failing set walk (one that throws, or returns `undefined` while the
assigned value is not `undefined`) leaves the current container completely
unchanged: a failure can only occur before any vivification, because once a
fresh container has been created the remaining walk always succeeds. -/
theorem setLoop_failure {cfg : Config} {p : String} {allP : List String} {v : JVal} :
    ∀ (parts : List String) (i : Nat) (obj : JVal),
      ((∃ e, (setLoop cfg p allP v parts i obj).2 = .threw e) ∨
        ((setLoop cfg p allP v parts i obj).2 = .ret .undef ∧ v ≠ .undef)) →
      (setLoop cfg p allP v parts i obj).1 = obj := by
  intro parts
  induction parts with
  | nil => intro i obj _; rfl
  | cons seg rest ih =>
    intro i obj hfail
    cases rest with
    | nil =>
      cases hg : getProp obj seg with
      | none => rw [setLoop_last_typeError hg]
      | some w =>
        by_cases hu : (isUndef w && !cfg.isExpandable) = true
        · by_cases ht : cfg.throwErrors = true
          · rw [setLoop_last hg, if_pos hu, if_pos ht]
          · rw [setLoop_last hg, if_pos hu, if_neg ht]
        · cases hs : setProp obj seg v with
          | none => rw [setLoop_last hg, if_neg hu, hs]
          | some obj' =>
            exfalso
            have hsnd : (setLoop cfg p allP v [seg] i obj).2 = .ret v := by
              rw [setLoop_last hg, if_neg hu, hs]
            rcases hfail with ⟨e, he⟩ | ⟨he, hvne⟩
            · rw [hsnd] at he; cases he
            · rw [hsnd] at he
              injection he with h2
              exact hvne h2
    | cons next rest' =>
      cases hv : vivPhase cfg (keyOf seg) next obj with
      | none => rw [setLoop_cons_typeError hv]
      | some obj1 =>
        cases hg : getProp obj1 (keyOf seg) with
        | none =>
          rw [setLoop_cons_typeError2 hv hg]
          rcases vivPhase_eq_or hv with h | ⟨_, hs⟩
          · exact h
          · have h2 := getProp_setProp_self hs
            rw [hg] at h2
            cases h2
        | some w =>
          by_cases hu : isUndef w = true
          · have hobj1 : obj1 = obj := by
              rcases vivPhase_eq_or hv with h | ⟨_, hs⟩
              · exact h
              · have hfr := getProp_setProp_self hs
                rw [hg] at hfr
                injection hfr with hweq
                rw [hweq, container_isUndef_false
                  (emptyCont_container (emptyCont_freshFor next))] at hu
                cases hu
            by_cases ht : cfg.throwErrors = true
            · rw [setLoop_cons hv hg, if_pos hu, if_pos ht]; exact hobj1
            · rw [setLoop_cons hv hg, if_pos hu, if_neg ht]; exact hobj1
          · have hw : w ≠ .undef := isUndef_eq_false.mp (by simpa using hu)
            have hfst : (setLoop cfg p allP v (seg :: next :: rest') i obj).1 =
                (setProp obj1 (keyOf seg)
                  (setLoop cfg p allP v (next :: rest') (i + 1) w).1).getD obj1 := by
              rw [setLoop_cons hv hg, if_neg hu]
            have hsnd : (setLoop cfg p allP v (seg :: next :: rest') i obj).2 =
                (setLoop cfg p allP v (next :: rest') (i + 1) w).2 := by
              rw [setLoop_cons hv hg, if_neg hu]
            rcases vivPhase_eq_or hv with h | ⟨hexp, hs⟩
            · subst h
              have hr1 : (setLoop cfg p allP v (next :: rest') (i + 1) w).1 = w := by
                apply ih
                rw [← hsnd]
                exact hfail
              rw [hfst, hr1, setProp_self_id hg hw]
              rfl
            · exfalso
              have hfr := getProp_setProp_self hs
              rw [hg] at hfr
              injection hfr with hweq
              have hret : (setLoop cfg p allP v (next :: rest') (i + 1) w).2 = .ret v := by
                rw [hweq]
                exact setLoop_fresh hexp _ _ _ (emptyCont_freshFor next) (by simp)
              rcases hfail with ⟨e, he⟩ | ⟨he, hvne⟩
              · rw [hsnd, hret] at he; cases he
              · rw [hsnd, hret] at he
                injection he with h2
                exact hvne h2

/-- A set walk only ever writes the slot of its first segment (through the
coerced key for an intermediate, the raw key for a terminal segment): every
other top-level slot of the current container reads the same afterwards. -/
theorem setLoop_frame {cfg : Config} {p : String} {allP : List String} {v : JVal} :
    ∀ (seg : String) (rest : List String) (i : Nat) (obj : JVal) (k : String),
      k ≠ keyOf seg → k ≠ seg →
      getProp ((setLoop cfg p allP v (seg :: rest) i obj).1) k = getProp obj k := by
  intro seg rest i obj k hk1 hk2
  cases rest with
  | nil =>
    cases hg : getProp obj seg with
    | none => rw [setLoop_last_typeError hg]
    | some w =>
      by_cases hu : (isUndef w && !cfg.isExpandable) = true
      · by_cases ht : cfg.throwErrors = true
        · rw [setLoop_last hg, if_pos hu, if_pos ht]
        · rw [setLoop_last hg, if_pos hu, if_neg ht]
      · cases hs : setProp obj seg v with
        | none => rw [setLoop_last hg, if_neg hu, hs]
        | some obj' =>
          rw [setLoop_last hg, if_neg hu, hs]
          exact getProp_setProp_other hs hk2
  | cons next rest' =>
    have hframe1 : ∀ o1, vivPhase cfg (keyOf seg) next obj = some o1 →
        getProp o1 k = getProp obj k := by
      intro o1 hv
      rcases vivPhase_eq_or hv with h | ⟨_, hs⟩
      · rw [h]
      · exact getProp_setProp_other hs hk1
    cases hv : vivPhase cfg (keyOf seg) next obj with
    | none => rw [setLoop_cons_typeError hv]
    | some obj1 =>
      cases hg : getProp obj1 (keyOf seg) with
      | none => rw [setLoop_cons_typeError2 hv hg]; exact hframe1 obj1 hv
      | some w =>
        by_cases hu : isUndef w = true
        · by_cases ht : cfg.throwErrors = true
          · rw [setLoop_cons hv hg, if_pos hu, if_pos ht]; exact hframe1 obj1 hv
          · rw [setLoop_cons hv hg, if_pos hu, if_neg ht]; exact hframe1 obj1 hv
        · rw [setLoop_cons hv hg, if_neg hu]
          cases hs : setProp obj1 (keyOf seg)
              (setLoop cfg p allP v (next :: rest') (i + 1) w).1 with
          | none => exact hframe1 obj1 hv
          | some c2 => exact (getProp_setProp_other hs hk1).trans (hframe1 obj1 hv)

theorem dropLast_pair (a b : String) (l : List String) :
    (a :: b :: l).dropLast = a :: (b :: l).dropLast := rfl

/-- C8: a write that ultimately fails (throws, or returns `undefined` while
assigning a defined value) performs no mutation at all — in this code a
failure can only occur before the first auto-vivification, since once a
fresh container is created the rest of the walk always succeeds; hence the
set of containers vivified before the failure point is empty and trivially
remains in place with no rollback.  Moreover any write returning `undefined`
leaves every top-level slot other than the first segment's unchanged. -/
theorem failedWriteNoMutation (cfg : Config) (T : JVal) (p : String) (v : JVal)
    (T' : JVal) (out : Outcome) (h : dotSet cfg T p v = (T', out)) :
    ((∃ e, out = .threw e) → T' = T) ∧
    ((out = .ret .undef ∧ v ≠ .undef) → T' = T) ∧
    (out = .ret .undef →
      ∀ k, k ≠ keyOf ((jsSplit p).headD "") → k ≠ (jsSplit p).headD "" →
        getProp T' k = getProp T k) := by
  by_cases him : cfg.isImmutable = true
  · unfold dotSet at h
    rw [if_pos him] at h
    injection h with h1 h2
    subst h1
    exact ⟨fun _ => rfl, fun _ => rfl, fun _ k _ _ => rfl⟩
  · unfold dotSet at h
    rw [if_neg him] at h
    have h1 : (setLoop cfg p (jsSplit p) v (jsSplit p) 0 T).1 = T' := by rw [h]
    have h2 : (setLoop cfg p (jsSplit p) v (jsSplit p) 0 T).2 = out := by rw [h]
    refine ⟨?_, ?_, ?_⟩
    · rintro ⟨e, he⟩
      rw [← h1]
      exact setLoop_failure (jsSplit p) 0 T (Or.inl ⟨e, h2.trans he⟩)
    · rintro ⟨he, hvne⟩
      rw [← h1]
      exact setLoop_failure (jsSplit p) 0 T (Or.inr ⟨h2.trans he, hvne⟩)
    · intro _ k hk1 hk2
      rw [← h1]
      obtain ⟨a, rest, hsp⟩ := List.exists_cons_of_ne_nil (jsSplit_ne_nil p)
      rw [hsp] at hk1 hk2 ⊢
      refine setLoop_frame a rest 0 T k ?_ ?_
      · simpa using hk1
      · simpa using hk2

/-- Witness for `failedWriteNoMutation`: a silent non-expandable write on a
missing path leaves the empty target unchanged. -/
theorem failedWriteNoMutationWitness :
    (dotSet ⟨false, false, false⟩ (.obj []) "x.y" (.num 1)).1 = .obj [] := by
  have h := failedWriteNoMutation ⟨false, false, false⟩ (.obj []) "x.y" (.num 1)
    (dotSet ⟨false, false, false⟩ (.obj []) "x.y" (.num 1)).1
    (dotSet ⟨false, false, false⟩ (.obj []) "x.y" (.num 1)).2 rfl
  exact h.2.1 ⟨rfl, by intro hc; cases hc⟩

/-- With `isExpandable` true and a defined value, a set walk whose
intermediate segments are all unchanged by key coercion and absent from the
current container succeeds, keeps the current value a container, and the
get walk over the same segments on the updated container returns the
assigned value. -/
theorem roundtrip_core {cfg : Config} {p : String} {allP : List String} {v : JVal}
    (hexp : cfg.isExpandable = true) (hv : v ≠ .undef) :
    ∀ (parts : List String) (i : Nat) (f : JVal), f.isContainer = true →
      (∀ s ∈ parts.dropLast, keyOf s = s) →
      (∀ s ∈ parts.dropLast, getProp f s = some .undef) →
      parts ≠ [] →
      (setLoop cfg p allP v parts i f).2 = .ret v ∧
      (setLoop cfg p allP v parts i f).1.isContainer = true ∧
      getLoop cfg p allP parts i (setLoop cfg p allP v parts i f).1 = .ok v := by
  intro parts
  induction parts with
  | nil => intro i f _ _ _ hne; exact absurd rfl hne
  | cons seg rest ih =>
    intro i f hf hkeys habs _
    cases rest with
    | nil =>
      obtain ⟨w, hw⟩ := getProp_some_of_container hf seg
      obtain ⟨f', hf', hfc, _⟩ := setProp_of_container hf seg v
      have hfst : (setLoop cfg p allP v [seg] i f).1 = f' := by
        rw [setLoop_last hw, if_neg (by simp [hexp]), hf']
      have hsnd : (setLoop cfg p allP v [seg] i f).2 = .ret v := by
        rw [setLoop_last hw, if_neg (by simp [hexp]), hf']
      refine ⟨hsnd, by rw [hfst]; exact hfc, ?_⟩
      rw [hfst, getLoop_cons (getProp_setProp_self hf'),
        if_neg (by simp [isUndef_eq_false.mpr hv])]
      rfl
    | cons next rest' =>
      have hkey : keyOf seg = seg := hkeys seg (by rw [dropLast_pair]; simp)
      have habs0 : getProp f (keyOf seg) = some .undef := by
        rw [hkey]
        exact habs seg (by rw [dropLast_pair]; simp)
      obtain ⟨c1, hc1, hcc1, _⟩ := setProp_of_container hf (keyOf seg)
        (if jsIsNumeric next then JVal.arr [] [] else JVal.obj [])
      have hvp : vivPhase cfg (keyOf seg) next f = some c1 := by
        unfold vivPhase
        rw [if_pos hexp, habs0]
        simp [isUndef, hc1]
      have hg1 := getProp_setProp_self hc1
      have hfr := emptyCont_freshFor next
      have hu : isUndef (if jsIsNumeric next then JVal.arr [] [] else JVal.obj []) =
          false := container_isUndef_false (emptyCont_container hfr)
      obtain ⟨hr2, hr1c, hrget⟩ := ih (i + 1)
        (if jsIsNumeric next then JVal.arr [] [] else JVal.obj [])
        (emptyCont_container hfr)
        (fun s hs => hkeys s (by rw [dropLast_pair]; exact List.mem_cons_of_mem _ hs))
        (fun s _ => getProp_empty hfr s)
        (by simp)
      have hfst : (setLoop cfg p allP v (seg :: next :: rest') i f).1 =
          (setProp c1 (keyOf seg) (setLoop cfg p allP v (next :: rest') (i + 1)
            (if jsIsNumeric next then JVal.arr [] [] else JVal.obj [])).1).getD c1 := by
        rw [setLoop_cons hvp hg1, if_neg (by simp [hu])]
      have hsnd : (setLoop cfg p allP v (seg :: next :: rest') i f).2 =
          (setLoop cfg p allP v (next :: rest') (i + 1)
            (if jsIsNumeric next then JVal.arr [] [] else JVal.obj [])).2 := by
        rw [setLoop_cons hvp hg1, if_neg (by simp [hu])]
      obtain ⟨c2, hc2, hcc2, _⟩ := setProp_of_container hcc1 (keyOf seg)
        (setLoop cfg p allP v (next :: rest') (i + 1)
          (if jsIsNumeric next then JVal.arr [] [] else JVal.obj [])).1
      have hfst2 : (setLoop cfg p allP v (seg :: next :: rest') i f).1 = c2 := by
        rw [hfst, hc2]
        rfl
      refine ⟨hsnd.trans hr2, by rw [hfst2]; exact hcc2, ?_⟩
      have hgc := getProp_setProp_self hc2
      rw [hkey] at hgc
      rw [hfst2, getLoop_cons hgc, if_neg (by simp [container_isUndef_false hr1c])]
      exact hrget

/-- C2 (amended): for every container target `T`, path `p` and defined value
`v`, when `isImmutable` is false, `isExpandable` is true, and every
intermediate segment of `p` is absent from `T` and is left unchanged by the
set trap's numeric key coercion, `set(p, v)` returns `v` and a subsequent
`get(p)` returns `v`. -/
theorem roundTrip (cfg : Config) (T : JVal) (p : String) (v : JVal)
    (hT : T.isContainer = true)
    (himm : cfg.isImmutable = false) (hexp : cfg.isExpandable = true)
    (hkeys : ∀ s ∈ (jsSplit p).dropLast, keyOf s = s)
    (habs : ∀ s ∈ (jsSplit p).dropLast, getProp T s = some .undef)
    (hv : v ≠ .undef) :
    ∃ T', dotSet cfg T p v = (T', .ret v) ∧ dotGet cfg T' p = .ok v := by
  have hcore := @roundtrip_core cfg p (jsSplit p) v hexp hv (jsSplit p) 0 T hT
    hkeys habs (jsSplit_ne_nil p)
  refine ⟨(setLoop cfg p (jsSplit p) v (jsSplit p) 0 T).1, ?_, ?_⟩
  · unfold dotSet
    rw [if_neg (by simp [himm]),
      show setLoop cfg p (jsSplit p) v (jsSplit p) 0 T =
        ((setLoop cfg p (jsSplit p) v (jsSplit p) 0 T).1,
          (setLoop cfg p (jsSplit p) v (jsSplit p) 0 T).2) from rfl,
      hcore.1]
  · unfold dotGet
    exact hcore.2.2

/-- Witness for `roundTrip`: a two-segment write on the empty object. -/
theorem roundTripWitness :
    ∃ T', dotSet defaultCfg (.obj []) "x.y" (.num 7) = (T', .ret (.num 7)) ∧
      dotGet defaultCfg T' "x.y" = .ok (.num 7) := by
  refine roundTrip defaultCfg (.obj []) "x.y" (.num 7) rfl rfl rfl ?_ ?_
    (by intro h; cases h)
  · intro s hs
    rw [show (jsSplit "x.y").dropLast = ["x"] from rfl] at hs
    simp at hs
    subst hs
    rfl
  · intro s hs
    rw [show (jsSplit "x.y").dropLast = ["x"] from rfl] at hs
    simp at hs
    subst hs
    rfl

/-- Counterexample to C2 as stated: on the empty object — where every
intermediate segment of `a.00.b` is absent — with default options, set
stores through the coerced key `0`, but the subsequent get reads the raw key
`00`, finds nothing and throws, so the round trip does not return the
value. -/
theorem roundTripCounterexample :
    (JVal.obj []).isContainer = true ∧
    defaultCfg.isImmutable = false ∧ defaultCfg.isExpandable = true ∧
    (∀ s ∈ (jsSplit "a.00.b").dropLast, getProp (.obj []) s = some .undef) ∧
    (dotSet defaultCfg (.obj []) "a.00.b" (.num 1)).2 = .ret (.num 1) ∧
    dotGet defaultCfg (dotSet defaultCfg (.obj []) "a.00.b" (.num 1)).1 "a.00.b" ≠
      .ok (.num 1) := by
  refine ⟨rfl, rfl, rfl, ?_, rfl, ?_⟩
  · intro s hs
    rw [show (jsSplit "a.00.b").dropLast = ["a", "00"] from rfl] at hs
    simp at hs
    rcases hs with rfl | rfl <;> rfl
  · intro hcontra
    rw [show dotGet defaultCfg (dotSet defaultCfg (.obj []) "a.00.b" (.num 1)).1
        "a.00.b" =
      .error (.invalidPath (errMsg "00" "a.00.b" ["a", "00", "b"] 1)) from rfl]
      at hcontra
    cases hcontra

/-- Counterexample to C3 as stated: the empty segment IS treated as numeric
by the code (`isNaN("")` is false because `Number("")` is 0), so on
`set("d..x", 1)` over the empty object the segment `d` — whose following
segment is the empty string — is auto-vivified as a fresh empty sequence,
not a fresh empty mapping. -/
theorem numericEmptySegment :
    jsIsNumeric "" = true ∧
    (dotSet defaultCfg (.obj []) "d..x" (.num 1)).1 =
      .obj [("d", .arr [.obj [("x", .num 1)]] [])] :=
  ⟨rfl, rfl⟩

/-- C3 (amended): a segment is treated as numeric exactly when `Number`
coercion of it is not NaN — "0" and "12" qualify and "a" does not, but the
empty string also qualifies since `Number("")` is 0.  In the set trap this
decides auto-vivification: when the slot of the current segment holds
`undefined` or a non-object, the walk leaves there a container that is a
sequence exactly when the following segment is numeric, and a mapping
otherwise. -/
theorem numericDetection :
    jsIsNumeric "0" = true ∧ jsIsNumeric "12" = true ∧
    jsIsNumeric "a" = false ∧ jsIsNumeric "" = true ∧
    ∀ (cfg : Config) (p : String) (allP : List String) (v : JVal)
      (seg next : String) (rest : List String) (i : Nat) (obj w : JVal),
      cfg.isExpandable = true → obj.isContainer = true →
      getProp obj (keyOf seg) = some w → (isUndef w || !isObjType w) = true →
      ∃ c, getProp ((setLoop cfg p allP v (seg :: next :: rest) i obj).1)
          (keyOf seg) = some c ∧ c.isArr = jsIsNumeric next := by
  refine ⟨rfl, rfl, rfl, rfl, ?_⟩
  intro cfg p allP v seg next rest i obj w hexp hc hg hcond
  obtain ⟨c1, hc1, hcc1, _⟩ := setProp_of_container hc (keyOf seg)
    (if jsIsNumeric next then JVal.arr [] [] else JVal.obj [])
  have hvp : vivPhase cfg (keyOf seg) next obj = some c1 := by
    unfold vivPhase
    rw [if_pos hexp, hg]
    simp [hcond, hc1]
  have hg1 := getProp_setProp_self hc1
  have hfr := emptyCont_freshFor next
  have hu : isUndef (if jsIsNumeric next then JVal.arr [] [] else JVal.obj []) =
      false := container_isUndef_false (emptyCont_container hfr)
  have hfst : (setLoop cfg p allP v (seg :: next :: rest) i obj).1 =
      (setProp c1 (keyOf seg) (setLoop cfg p allP v (next :: rest) (i + 1)
        (if jsIsNumeric next then JVal.arr [] [] else JVal.obj [])).1).getD c1 := by
    rw [setLoop_cons hvp hg1, if_neg (by simp [hu])]
  have hpres := @setLoop_preserves cfg p allP v (next :: rest) (i + 1)
    (if jsIsNumeric next then JVal.arr [] [] else JVal.obj []) (emptyCont_container hfr)
  obtain ⟨c2, hc2, _, _⟩ := setProp_of_container hcc1 (keyOf seg)
    (setLoop cfg p allP v (next :: rest) (i + 1)
      (if jsIsNumeric next then JVal.arr [] [] else JVal.obj [])).1
  refine ⟨(setLoop cfg p allP v (next :: rest) (i + 1)
      (if jsIsNumeric next then JVal.arr [] [] else JVal.obj [])).1, ?_, ?_⟩
  · rw [hfst, hc2]
    exact getProp_setProp_self hc2
  · rw [hpres.2]
    cases hn : jsIsNumeric next <;> simp [hn, JVal.isArr]

/-- Witness for the general part of `numericDetection`: vivifying `a` while
writing `a.0` on the empty object leaves a sequence at `a`. -/
theorem numericDetectionWitness :
    ∃ c, getProp ((setLoop defaultCfg "a.0" ["a", "0"] (.num 5) ["a", "0"] 0
        (.obj [])).1) (keyOf "a") = some c ∧ c.isArr = jsIsNumeric "0" :=
  numericDetection.2.2.2.2 defaultCfg "a.0" ["a", "0"] (.num 5) "a" "0" [] 0
    (.obj []) .undef rfl rfl rfl rfl

/-- A set walk over a path whose every segment (addressed the way the trap
addresses it) already resolves to a defined value assigns the terminal slot
and returns the value even with `isExpandable` false, and reading the path
back the same way yields the assigned value. -/
theorem setLoop_overwrite {cfg : Config} {p : String} {allP : List String} {v : JVal}
    (hexp : cfg.isExpandable = false) :
    ∀ (parts : List String) (i : Nat) (c : JVal), resolvesB c parts = true →
      (setLoop cfg p allP v parts i c).2 = .ret v ∧
      readPath (setLoop cfg p allP v parts i c).1 parts = some v := by
  intro parts
  induction parts with
  | nil => intro i c hres; simp [resolvesB] at hres
  | cons seg rest ih =>
    intro i c hres
    cases rest with
    | nil =>
      cases hg : getProp c seg with
      | none => simp only [resolvesB, hg] at hres; cases hres
      | some w =>
        simp only [resolvesB, hg] at hres
        have hw : w ≠ .undef := isUndef_eq_false.mp (by simpa using hres)
        obtain ⟨c', hc', _, _⟩ := setProp_of_container (container_of_getProp hg hw) seg v
        have hcond : (isUndef w && !cfg.isExpandable) = false := by
          rw [isUndef_eq_false.mpr hw]
          rfl
        constructor
        · rw [setLoop_last hg, if_neg (by simp [hcond]), hc']
        · rw [setLoop_last hg, if_neg (by simp [hcond]), hc']
          exact getProp_setProp_self hc'
    | cons next rest' =>
      cases hg : getProp c (keyOf seg) with
      | none => simp only [resolvesB, hg] at hres; cases hres
      | some w =>
        simp only [resolvesB, hg] at hres
        by_cases hu : isUndef w = true
        · rw [if_pos hu] at hres; cases hres
        · rw [if_neg hu] at hres
          have hw : w ≠ .undef := isUndef_eq_false.mp (by simpa using hu)
          have hvp := @vivPhase_not_expandable cfg (keyOf seg) next c hexp
          have hih := ih (i + 1) w hres
          have hfst : (setLoop cfg p allP v (seg :: next :: rest') i c).1 =
              (setProp c (keyOf seg)
                (setLoop cfg p allP v (next :: rest') (i + 1) w).1).getD c := by
            rw [setLoop_cons hvp hg, if_neg hu]
          have hsnd : (setLoop cfg p allP v (seg :: next :: rest') i c).2 =
              (setLoop cfg p allP v (next :: rest') (i + 1) w).2 := by
            rw [setLoop_cons hvp hg, if_neg hu]
          obtain ⟨c2, hc2, _, _⟩ := setProp_of_container
            (container_of_getProp hg hw) (keyOf seg)
            (setLoop cfg p allP v (next :: rest') (i + 1) w).1
          have hfst2 : (setLoop cfg p allP v (seg :: next :: rest') i c).1 = c2 := by
            rw [hfst, hc2]
            rfl
          refine ⟨hsnd.trans hih.1, ?_⟩
          rw [hfst2]
          simp only [readPath, getProp_setProp_self hc2]
          exact hih.2

/-- C9: with `isExpandable` false and `isImmutable` false, a set over a path
every segment of which (including the terminal one) already resolves to a
defined value in the target still overwrites the terminal value and returns
the assigned value: non-expandability blocks only the creation of missing
entries, not overwriting existing ones. -/
theorem overwriteExisting (cfg : Config) (T : JVal) (p : String) (v : JVal)
    (himm : cfg.isImmutable = false) (hexp : cfg.isExpandable = false)
    (hres : resolvesB T (jsSplit p) = true) :
    (dotSet cfg T p v).2 = .ret v ∧
    readPath (dotSet cfg T p v).1 (jsSplit p) = some v := by
  unfold dotSet
  rw [if_neg (by simp [himm])]
  exact setLoop_overwrite hexp (jsSplit p) 0 T hres

/-- Witness for `overwriteExisting`: overwriting `a.b` over `a: (b: 1)`. -/
theorem overwriteExistingWitness :
    (dotSet ⟨false, false, true⟩ (.obj [("a", .obj [("b", .num 1)])]) "a.b"
      (.num 2)).2 = .ret (.num 2) ∧
    readPath (dotSet ⟨false, false, true⟩ (.obj [("a", .obj [("b", .num 1)])]) "a.b"
      (.num 2)).1 (jsSplit "a.b") = some (.num 2) :=
  overwriteExisting ⟨false, false, true⟩ (.obj [("a", .obj [("b", .num 1)])]) "a.b"
    (.num 2) rfl rfl rfl

/-- Every InvalidPath message a get walk produces is the message built for
some segment index within the walked list. -/
theorem getLoop_invalid {cfg : Config} {p : String} {allP : List String} :
    ∀ (parts : List String) (i : Nat) (obj : JVal) (m : String),
      getLoop cfg p allP parts i obj = .error (.invalidPath m) →
      ∃ j, j < parts.length ∧ m = errMsg (parts.getD j "") p allP (i + j) := by
  intro parts
  induction parts with
  | nil => intro i obj m h; simp [getLoop] at h
  | cons seg rest ih =>
    intro i obj m h
    cases hg : getProp obj seg with
    | none => rw [getLoop_cons_typeError hg] at h; simp at h
    | some w =>
      rw [getLoop_cons hg] at h
      by_cases hu : isUndef w = true
      · rw [if_pos hu] at h
        by_cases ht : cfg.throwErrors = true
        · rw [if_pos ht] at h
          simp only [Except.error.injEq, JErr.invalidPath.injEq] at h
          refine ⟨0, by simp, ?_⟩
          rw [← h]
          simp
        · rw [if_neg ht] at h; simp at h
      · rw [if_neg hu] at h
        obtain ⟨j, hj, hm⟩ := ih (i + 1) w m h
        refine ⟨j + 1, by simpa using hj, ?_⟩
        rw [hm, show i + 1 + j = i + (j + 1) from by omega]
        simp

/-- Shape of an InvalidPath message: it contains the quoted offending
segment followed (later) by the full original path, and it ends in a caret
line placing the caret at column 0 for a first-segment failure and at the
length of the dot-joined prefix of all prior segments otherwise. -/
theorem errMsg_shape (seg p : String) (parts : List String) (i : Nat) :
    ∃ a b, errMsg seg p parts i = a ++ seg ++ b ++ p ++ "\n" ++
      spaces (if i = 0 then 0 else (joinDot (parts.take i)).length) ++ "^" := by
  by_cases hi : i = 0
  · refine ⟨"invalid target \"", "\"\n", ?_⟩
    simp only [errMsg, if_pos hi]
    apply String.ext
    simp [spaces]
  · refine ⟨"invalid target \"", "\" in \"" ++ joinDot (parts.take i) ++ "\"\n", ?_⟩
    simp only [errMsg, if_neg hi]
    apply String.ext
    simp [spaces]

/-- C7: when a get fails with `throwErrors` on, the InvalidPath message
identifies the offending segment and the full path and carries a caret
pointer at column 0 when the failing segment is the first, and otherwise at
the character offset equal to the length of the dot-joined prefix of all
prior segments; in particular `get("c.cA")` on the empty object raises the
error referencing segment `c` with the caret at column 0. -/
theorem invalidPathPointer :
    (dotGet defaultCfg (.obj []) "c.cA" =
      .error (.invalidPath
        ("invalid target \"" ++ "c" ++ "\"\n" ++ "c.cA" ++ "\n" ++ spaces 0 ++ "^"))) ∧
    ∀ (cfg : Config) (T : JVal) (p m : String),
      dotGet cfg T p = .error (.invalidPath m) →
      ∃ j a b, j < (jsSplit p).length ∧
        m = a ++ (jsSplit p).getD j "" ++ b ++ p ++ "\n" ++
          spaces (if j = 0 then 0 else (joinDot ((jsSplit p).take j)).length) ++ "^" := by
  constructor
  · rfl
  · intro cfg T p m h
    obtain ⟨j, hj, hm⟩ := getLoop_invalid (jsSplit p) 0 T m h
    obtain ⟨a, b, hab⟩ := errMsg_shape ((jsSplit p).getD j "") p (jsSplit p) j
    refine ⟨j, a, b, hj, ?_⟩
    rw [hm, show 0 + j = j from by omega]
    exact hab

/-- Witness for the general part of `invalidPathPointer`: the failure of
`get("c.cA")` on the empty object is at index 0 with the caret at column
0. -/
theorem invalidPathPointerWitness :
    ∃ j a b, j < (jsSplit "c.cA").length ∧
      ("invalid target \"" ++ "c" ++ "\"\n" ++ "c.cA" ++ "\n" ++ spaces 0 ++ "^") =
        a ++ (jsSplit "c.cA").getD j "" ++ b ++ "c.cA" ++ "\n" ++
          spaces (if j = 0 then 0
            else (joinDot ((jsSplit "c.cA").take j)).length) ++ "^" :=
  invalidPathPointer.2 defaultCfg (.obj []) "c.cA"
    ("invalid target \"" ++ "c" ++ "\"\n" ++ "c.cA" ++ "\n" ++ spaces 0 ++ "^")
    invalidPathPointer.1

end DotDotty
